import Mathlib

/-!
Shallow embedding of `asteroid/metrics.py`: the `get_metrics` function and the
`MetricTracker` class (its `__call__`, `to_csv` and `final_report` methods).

Modelling conventions:
- Python numbers are rationals (`ℚ`); a metric value is a `Val`: a scalar, a
  numeric array, or `Val.null` (Python `None`).
- The external library contexts `InputMetrics` / `OutputMetrics` from
  `pb_bss_eval` are black boxes: a context applied to a concrete
  mix/clean/estimate triple is modelled as a lookup function
  `String → Except String Val`, where `.error e` models the item access
  `src[metric]` raising an exception whose text is `e`.  The sample rate and
  the permutation flag only flow into these external constructors, so they are
  absorbed by the lookup functions (they are kept as configuration fields of
  the tracker for structural fidelity).
- A Python `dict` is an association list `List (String × Val)` with
  insertion-order semantics: `dictInsert` updates an existing key in place and
  appends a fresh key at the end, exactly as CPython dicts do.
- Raised `RuntimeError`s are modelled by `Except StrictErr`, where `StrictErr`
  carries the message and the chained cause; `warnings.warn` calls are
  modelled by accumulating the warning texts in a list.
- File writes (`final_report`) are modelled by returning the written path and
  content as data.
-/

namespace Asteroid

/-- A Python metric value: a scalar number, a numeric array, or `None`. -/
inductive Val where
  | scalar (q : ℚ)
  | arr (qs : List ℚ)
  | null
deriving DecidableEq, Repr

/-- Source line `ALL_METRICS = ["si_sdr", "sdr", "sir", "sar", "stoi", "pesq"]`. -/
def ALL_METRICS : List String := ["si_sdr", "sdr", "sir", "sar", "stoi", "pesq"]

/-- The `metrics_list` argument of `get_metrics`: a single string or a list of
strings (`Union[List[str], str]`). -/
inductive MetricsListArg where
  | str (s : String)
  | list (l : List String)

/-- The normalization at the top of `get_metrics`:
`if metrics_list == "all": metrics_list = ALL_METRICS` followed by
`if isinstance(metrics_list, str): metrics_list = [metrics_list]`.
A list argument never compares equal to the string `"all"` in Python. -/
def normalizeMetricsList : MetricsListArg → List String
  | .str s => if s = "all" then ALL_METRICS else [s]
  | .list l => l

/-- Python `filename or "<unknown file>"`: `None` and the empty string are
falsy, any other string is returned unchanged. -/
def fileLabel : Option String → String
  | none => "<unknown file>"
  | some s => if s = "" then "<unknown file>" else s

/-- The strict-mode message `f"Error computing {key} for {filename or '<unknown file>'}"`. -/
def strictMsg (key : String) (f : Option String) : String :=
  "Error computing " ++ key ++ " for " ++ fileLabel f

/-- The tolerant-mode warning text
`f"Error computing {key} for {filename or '<unknown file>'}, ignoring. Error was: {err}"`. -/
def warnMsg (key : String) (f : Option String) (err : String) : String :=
  "Error computing " ++ key ++ " for " ++ fileLabel f ++ ", ignoring. Error was: " ++ err

/-- A raised `RuntimeError`: its message and the chained original exception
(`raise RuntimeError(...) from err`). -/
structure StrictErr where
  msg : String
  cause : String
deriving DecidableEq, Repr

/-- CPython dict assignment `d[k] = v`: update the existing entry in place
(keeping its position) if `k` is present, else append `(k, v)` at the end. -/
def dictInsert {α : Type} (d : List (String × α)) (k : String) (v : α) :
    List (String × α) :=
  if d.any (fun p => p.1 = k) then
    d.map (fun p => if p.1 = k then (k, v) else p)
  else
    d ++ [(k, v)]

/-- Dict item access `d[k]` as an `Option`: the value of the first (and for
dicts built by `dictInsert`, only) entry whose key is `k`. -/
def dlookup {α : Type} (k : String) : List (String × α) → Option α
  | [] => none
  | p :: rest => if p.1 = k then some p.2 else dlookup k rest

/-- The keys of a dict, in insertion order. -/
def dkeys {α : Type} (d : List (String × α)) : List String :=
  d.map Prod.fst

/-- The inner `for metric in metrics_list` loop of `get_metrics`, for one
`(src, prefix)` pair.  The state is the pair of the dict `utt_metrics` built
so far and the warnings emitted so far.  `lookup` models `src[metric]`,
`pfx` is the prefix (`"input_"` or `""`), `ign` is `ignore_metrics_errors`
and `f` is `filename`. -/
def runLoop (lookup : String → Except String Val) (pfx : String)
    (ms : List String) (ign : Bool) (f : Option String)
    (st : List (String × Val) × List String) :
    Except StrictErr (List (String × Val) × List String) :=
  match ms with
  | [] => .ok st
  | m :: rest =>
    let key := pfx ++ m
    match lookup m with
    | .ok v => runLoop lookup pfx rest ign f (dictInsert st.1 key v, st.2)
    | .error err =>
      if ign then
        runLoop lookup pfx rest ign f
          (dictInsert st.1 key Val.null, st.2 ++ [warnMsg key f err])
      else
        .error ⟨strictMsg key f, err⟩

/-- Reduction of one value by `average_arrays_in_dic`: a multi-element numeric
sequence is reduced to its arithmetic mean, everything else passes through. -/
def avgVal : Val → Val
  | .scalar q => .scalar q
  | .null => .null
  | .arr qs => if 2 ≤ qs.length then .scalar (qs.sum / qs.length) else .arr qs

/-- Modelled from the spec: `average_arrays_in_dic` is imported from
`asteroid.utils`, whose source is not under `src/`.  Spec wording: "every
value in the result mapping that is a multi-element numeric sequence is
reduced to its arithmetic mean (per-key); scalars pass through unchanged".
Nulls recorded for tolerated failures pass through unchanged as well; keys
are preserved. -/
def average_arrays_in_dic (d : List (String × Val)) : List (String × Val) :=
  d.map (fun p => (p.1, avgVal p.2))

/-- The arguments of one `get_metrics` call, with the two external contexts
already applied to the concrete mix/clean/estimate triple (see the module
docstring): `inputLookup` models `InputMetrics(observation=mix, ...)[·]` and
`outputLookup` models `OutputMetrics(speech_prediction=estimate, ...)[·]`. -/
structure GetMetricsArgs where
  inputLookup : String → Except String Val
  outputLookup : String → Except String Val
  metrics_list : MetricsListArg
  average : Bool
  ignore_metrics_errors : Bool
  filename : Option String

/-- `get_metrics`: normalize the metric list, run the double loop over
`[(input_metrics, "input_"), (output_metrics, "")]`, then average if
requested.  The result pairs the returned dict with the emitted warnings. -/
def get_metrics (A : GetMetricsArgs) :
    Except StrictErr (List (String × Val) × List String) :=
  match runLoop A.inputLookup "input_" (normalizeMetricsList A.metrics_list)
      A.ignore_metrics_errors A.filename ([], []) with
  | .error e => .error e
  | .ok st1 =>
    match runLoop A.outputLookup "" (normalizeMetricsList A.metrics_list)
        A.ignore_metrics_errors A.filename st1 with
    | .error e => .error e
    | .ok st2 =>
      .ok (if A.average then average_arrays_in_dic st2.1 else st2.1, st2.2)

/-- The configuration fields set by `MetricTracker.__init__`. -/
structure TrackerCfg where
  sample_rate : Nat
  metrics_list : List String
  average : Bool
  compute_permutation : Bool
  ignore_metrics_errors : Bool
deriving DecidableEq, Repr

/-- `MetricTracker` state: its configuration and `self.series_list`, the list
of recorded rows (a `pd.Series` built from a dict keeps the dict entries in
order, so a row is just the dict). -/
structure MetricTracker where
  cfg : TrackerCfg
  series_list : List (List (String × Val))
deriving DecidableEq, Repr

/-- The per-call arguments of `MetricTracker.__call__`: the two external
contexts applied to this call's mix/clean/estimate, the `filename` keyword
(a named parameter, not part of `**kwargs`), and the remaining keyword
arguments `**kwargs` in call order (Python keyword arguments cannot repeat a
key, but the model tolerates repetitions). -/
structure CallInput where
  inputLookup : String → Except String Val
  outputLookup : String → Except String Val
  filename : Option String
  kwargs : List (String × Val)

/-- The `get_metrics` argument record built inside `MetricTracker.__call__`
from the stored configuration and the call arguments. -/
def mkArgs (cfg : TrackerCfg) (c : CallInput) : GetMetricsArgs :=
  ⟨c.inputLookup, c.outputLookup, .list cfg.metrics_list,
    cfg.average, cfg.ignore_metrics_errors, c.filename⟩

/-- `MetricTracker.__call__`: compute `utt_metrics = get_metrics(...)`, then
`utt_metrics.update(kwargs)` (last write wins), then
`self.series_list.append(pd.Series(utt_metrics))`.  Python returns `None`;
the state-passing model returns the updated tracker, and a raised error is
the `.error` case (in which the caller's tracker is unchanged). -/
def MetricTracker.call (tr : MetricTracker) (c : CallInput) :
    Except StrictErr MetricTracker :=
  match get_metrics (mkArgs tr.cfg c) with
  | .error e => .error e
  | .ok (utt, _) =>
    let row := c.kwargs.foldl (fun d p => dictInsert d p.1 p.2) utt
    .ok ⟨tr.cfg, tr.series_list ++ [row]⟩

/-- A sequence of `record` calls, in order. -/
def callMany (tr : MetricTracker) : List CallInput → Except StrictErr MetricTracker
  | [] => .ok tr
  | c :: cs =>
    match tr.call c with
    | .error e => .error e
    | .ok tr1 => callMany tr1 cs

/-- Set-union step preserving first-seen order. -/
def insKey (ks : List String) (k : String) : List String :=
  if k ∈ ks then ks else ks ++ [k]

/-- The columns of `pd.DataFrame(self.series_list)`: the union of the keys of
all rows, in order of first appearance. -/
def dfColumns (rows : List (List (String × Val))) : List String :=
  rows.foldl (fun cols r => (dkeys r).foldl insKey cols) []

/-- `pd.DataFrame(rows)[k]`: raises a `KeyError` (modelled as `.error k`)
when `k` is not a column; otherwise the column's cells in row order, a
missing key in a row being `none` (pandas `NaN`). -/
def dfGetCol (rows : List (List (String × Val))) (k : String) :
    Except String (List (Option Val)) :=
  if k ∈ dfColumns rows then .ok (rows.map (fun r => dlookup k r)) else .error k

/-- `MetricTracker.to_csv` builds `pd.DataFrame(self.series_list)` and writes
it: modelled as the produced table, the header (column list) plus one list of
cells per row. -/
def MetricTracker.to_csv (tr : MetricTracker) :
    List String × List (List (Option Val)) :=
  (dfColumns tr.series_list,
    tr.series_list.map (fun r => (dfColumns tr.series_list).map (fun k => dlookup k r)))

/-- A pandas column mean with default `skipna`: the mean of the scalar cells,
`none` (pandas `NaN`) when there is no scalar cell. -/
def colMean (cells : List (Option Val)) : Option ℚ :=
  let nums := cells.filterMap (fun c =>
    match c with
    | some (Val.scalar q) => some q
    | _ => none)
  if nums.length = 0 then none else some (nums.sum / nums.length)

/-- Elementwise subtraction of two aligned pandas columns: scalar minus
scalar, anything involving a missing or non-scalar cell is `NaN` (`none`). -/
def subCell : Option Val → Option Val → Option Val
  | some (Val.scalar a), some (Val.scalar b) => some (Val.scalar (a - b))
  | _, _ => none

/-- The `for metric_name in self.metrics_list` loop of `final_report`:
`ldf = all_metrics_df[metric_name] - all_metrics_df[input_metric_name]`,
`final_results[metric_name] = all_metrics_df[metric_name].mean()`,
`final_results[metric_name + "_imp"] = ldf.mean()`.  A `KeyError` from a
column access aborts the loop. -/
def reportLoop (rows : List (List (String × Val))) :
    List String → List (String × Option ℚ) → Except String (List (String × Option ℚ))
  | [], acc => .ok acc
  | m :: rest, acc =>
    match dfGetCol rows m with
    | .error e => .error e
    | .ok col =>
      match dfGetCol rows ("input_" ++ m) with
      | .error e => .error e
      | .ok icol =>
        let ldf := List.zipWith subCell col icol
        reportLoop rows rest
          (dictInsert (dictInsert acc m (colMean col)) (m ++ "_imp") (colMean ldf))

/-- `dump_path = dump_path + ".json" if not dump_path.endswith(".json") else dump_path`. -/
def normDumpPath (p : String) : String :=
  if p.endsWith ".json" then p else p ++ ".json"

/-- `MetricTracker.final_report(dump_path)`: run the summary loop over the
DataFrame of `rows`; on success, optionally dump the results as JSON.  The
result pairs the returned `final_results` dict with the write that happened
(`some (path, content)`) or `none`; an uncaught `KeyError` is `.error`, in
which case nothing is written. -/
def final_report (ml : List String) (rows : List (List (String × Val)))
    (dump_path : Option String) :
    Except String ((List (String × Option ℚ)) × Option (String × List (String × Option ℚ))) :=
  match reportLoop rows ml [] with
  | .error e => .error e
  | .ok res =>
    match dump_path with
    | none => .ok (res, none)
    | some p => .ok (res, some (normDumpPath p, res))

/-- The method `MetricTracker.final_report` on the tracker state. -/
def MetricTracker.finalReport (tr : MetricTracker) (dump_path : Option String) :
    Except String ((List (String × Option ℚ)) × Option (String × List (String × Option ℚ))) :=
  final_report tr.cfg.metrics_list tr.series_list dump_path

/-! ### Dictionary lemmas -/

theorem dlookup_eq_none_iff {α : Type} (k : String) (d : List (String × α)) :
    dlookup k d = none ↔ ∀ p ∈ d, p.1 ≠ k := by
  induction d with
  | nil => simp [dlookup]
  | cons p rest ih =>
    by_cases h : p.1 = k
    · simp [dlookup, h]
    · simp [dlookup, h, ih]

theorem dlookup_map_update_same {α : Type} (d : List (String × α)) (k : String) (v : α) :
    dlookup k (d.map (fun p => if p.1 = k then (k, v) else p)) =
      (dlookup k d).map (fun _ => v) := by
  induction d with
  | nil => simp [dlookup]
  | cons p rest ih =>
    by_cases hp : p.1 = k
    · simp [dlookup, hp]
    · simp [dlookup, hp, ih]

theorem dlookup_map_update_other {α : Type} (d : List (String × α)) (k k' : String)
    (v : α) (hne : k' ≠ k) :
    dlookup k' (d.map (fun p => if p.1 = k then (k, v) else p)) = dlookup k' d := by
  induction d with
  | nil => simp [dlookup]
  | cons p rest ih =>
    by_cases hp : p.1 = k
    · have h1 : ¬ (k = k') := fun h => hne h.symm
      have h2 : ¬ (p.1 = k') := by rw [hp]; exact h1
      simp [dlookup, hp, h1, h2, ih]
    · by_cases hp' : p.1 = k'
      · simp [dlookup, hp, hp', hne]
      · simp [dlookup, hp, hp', ih]

theorem dlookup_append_single {α : Type} (d : List (String × α)) (k k' : String) (v : α) :
    dlookup k' (d ++ [(k, v)]) =
      match dlookup k' d with
      | some w => some w
      | none => if k = k' then some v else none := by
  induction d with
  | nil => simp [dlookup]
  | cons p rest ih =>
    by_cases hp : p.1 = k'
    · simp [dlookup, hp]
    · simp [dlookup, hp, ih]

theorem any_key_iff {α : Type} (d : List (String × α)) (k : String) :
    (d.any (fun p => p.1 = k)) = true ↔ ∃ p ∈ d, p.1 = k := by
  simp [List.any_eq_true]

theorem dlookup_dictInsert {α : Type} (d : List (String × α)) (k k' : String) (v : α) :
    dlookup k' (dictInsert d k v) = if k' = k then some v else dlookup k' d := by
  unfold dictInsert
  by_cases hmem : (d.any (fun p => p.1 = k)) = true
  · rw [if_pos hmem]
    by_cases hk : k' = k
    · subst hk
      rw [dlookup_map_update_same]
      obtain ⟨p, hp, hpk⟩ := (any_key_iff d k').mp hmem
      have : dlookup k' d ≠ none := by
        rw [Ne, dlookup_eq_none_iff]
        push_neg
        exact ⟨p, hp, hpk⟩
      obtain ⟨w, hw⟩ := Option.ne_none_iff_exists'.mp this
      simp [hw]
    · rw [dlookup_map_update_other d k k' v hk, if_neg hk]
  · rw [if_neg hmem]
    have hnone : dlookup k d = none := by
      rw [dlookup_eq_none_iff]
      intro p hp h
      exact hmem ((any_key_iff d k).mpr ⟨p, hp, h⟩)
    rw [dlookup_append_single]
    by_cases hk : k' = k
    · subst hk
      simp [hnone]
    · have : ¬ (k = k') := fun h => hk h.symm
      cases hd : dlookup k' d <;> simp [this, hk]

theorem dkeys_dictInsert {α : Type} (d : List (String × α)) (k : String) (v : α) :
    dkeys (dictInsert d k v) = insKey (dkeys d) k := by
  unfold dictInsert insKey
  have hiff : (d.any (fun p => p.1 = k)) = true ↔ k ∈ dkeys d := by
    simp [List.any_eq_true, dkeys, List.mem_map]
  by_cases hmem : k ∈ dkeys d
  · rw [if_pos (hiff.mpr hmem), if_pos hmem]
    simp only [dkeys, List.map_map]
    apply List.map_congr_left
    intro p _
    by_cases hp : p.1 = k
    · simp [hp]
    · simp [hp]
  · rw [if_neg (fun h => hmem (hiff.mp h)), if_neg hmem]
    simp [dkeys]

theorem mem_insKey (ks : List String) (k a : String) :
    a ∈ insKey ks k ↔ a ∈ ks ∨ a = k := by
  unfold insKey
  by_cases h : k ∈ ks
  · simp only [h, if_true]
    constructor
    · exact Or.inl
    · rintro (ha | ha)
      · exact ha
      · exact ha ▸ h
  · simp [h]

theorem mem_foldl_insKey (l : List String) (ks : List String) (a : String) :
    a ∈ l.foldl insKey ks ↔ a ∈ ks ∨ a ∈ l := by
  induction l generalizing ks with
  | nil => simp
  | cons k rest ih =>
    simp only [List.foldl_cons, ih, mem_insKey, List.mem_cons]
    tauto

theorem foldl_insKey_fresh :
    ∀ (l ks : List String), l.Nodup → (∀ k ∈ l, k ∉ ks) →
      l.foldl insKey ks = ks ++ l := by
  intro l
  induction l with
  | nil => intro ks _ _; simp
  | cons k rest ih =>
    intro ks hnd hfresh
    simp only [List.foldl_cons]
    have hk : k ∉ ks := hfresh k (List.mem_cons_self _ _)
    rw [insKey, if_neg hk]
    have hfresh' : ∀ k' ∈ rest, k' ∉ ks ++ [k] := by
      intro k' hk'
      simp only [List.mem_append, List.mem_singleton, not_or]
      refine ⟨hfresh k' (List.mem_cons_of_mem _ hk'), ?_⟩
      intro h
      exact (List.nodup_cons.mp hnd).1 (h ▸ hk')
    rw [ih (ks ++ [k]) (List.nodup_cons.mp hnd).2 hfresh']
    simp

theorem dlookup_eq_none_of_not_mem_dkeys {α : Type} (k : String)
    (d : List (String × α)) (h : k ∉ dkeys d) : dlookup k d = none := by
  rw [dlookup_eq_none_iff]
  intro p hp hpk
  exact h (hpk ▸ List.mem_map_of_mem Prod.fst hp)

theorem dlookup_average (d : List (String × Val)) (k : String) :
    dlookup k (average_arrays_in_dic d) = (dlookup k d).map avgVal := by
  induction d with
  | nil => simp [average_arrays_in_dic, dlookup]
  | cons p rest ih =>
    by_cases hp : p.1 = k
    · simp [average_arrays_in_dic, dlookup, hp]
    · simpa [average_arrays_in_dic, dlookup, hp] using ih

theorem dkeys_average (d : List (String × Val)) :
    dkeys (average_arrays_in_dic d) = dkeys d := by
  simp [average_arrays_in_dic, dkeys, List.map_map]


/-! ### Loop lemmas for `runLoop` -/

theorem runLoop_cons_ok (lookup : String → Except String Val) (pfx m : String)
    (rest : List String) (ign : Bool) (f : Option String)
    (st : List (String × Val) × List String) (v : Val) (hl : lookup m = .ok v) :
    runLoop lookup pfx (m :: rest) ign f st =
      runLoop lookup pfx rest ign f (dictInsert st.1 (pfx ++ m) v, st.2) := by
  rw [runLoop, hl]

theorem runLoop_cons_error_tol (lookup : String → Except String Val) (pfx m : String)
    (rest : List String) (f : Option String)
    (st : List (String × Val) × List String) (e : String) (hl : lookup m = .error e) :
    runLoop lookup pfx (m :: rest) true f st =
      runLoop lookup pfx rest true f
        (dictInsert st.1 (pfx ++ m) Val.null, st.2 ++ [warnMsg (pfx ++ m) f e]) := by
  rw [runLoop, hl]
  rfl

theorem runLoop_cons_error_strict (lookup : String → Except String Val) (pfx m : String)
    (rest : List String) (f : Option String)
    (st : List (String × Val) × List String) (e : String) (hl : lookup m = .error e) :
    runLoop lookup pfx (m :: rest) false f st =
      .error ⟨strictMsg (pfx ++ m) f, e⟩ := by
  rw [runLoop, hl]
  rfl

theorem runLoop_ok_keys (lookup : String → Except String Val) (pfx : String)
    (ign : Bool) (f : Option String) :
    ∀ (ms : List String) (st st' : List (String × Val) × List String),
      runLoop lookup pfx ms ign f st = .ok st' →
      dkeys st'.1 = (ms.map (fun m => pfx ++ m)).foldl insKey (dkeys st.1) := by
  intro ms
  induction ms with
  | nil =>
    intro st st' h
    simp only [runLoop, Except.ok.injEq] at h
    subst h
    simp
  | cons m rest ih =>
    intro st st' h
    cases hl : lookup m with
    | ok v =>
      rw [runLoop_cons_ok lookup pfx m rest ign f st v hl] at h
      have h2 := ih (dictInsert st.1 (pfx ++ m) v, st.2) st' h
      simp only [dkeys_dictInsert] at h2
      simpa [List.foldl_cons] using h2
    | error e =>
      cases ign with
      | true =>
        rw [runLoop_cons_error_tol lookup pfx m rest f st e hl] at h
        have h2 := ih (dictInsert st.1 (pfx ++ m) Val.null,
          st.2 ++ [warnMsg (pfx ++ m) f e]) st' h
        simp only [dkeys_dictInsert] at h2
        simpa [List.foldl_cons] using h2
      | false =>
        rw [runLoop_cons_error_strict lookup pfx m rest f st e hl] at h
        cases h

theorem runLoop_isOk (lookup : String → Except String Val) (pfx : String)
    (ign : Bool) (f : Option String) :
    ∀ (ms : List String) (st : List (String × Val) × List String),
      (ign = true ∨ ∀ m ∈ ms, ∃ v, lookup m = .ok v) →
      ∃ st', runLoop lookup pfx ms ign f st = .ok st' := by
  intro ms
  induction ms with
  | nil => intro st _; exact ⟨st, rfl⟩
  | cons m rest ih =>
    intro st hok
    cases hl : lookup m with
    | ok v =>
      rw [runLoop_cons_ok lookup pfx m rest ign f st v hl]
      apply ih
      rcases hok with h | h
      · exact Or.inl h
      · exact Or.inr (fun m' hm' => h m' (List.mem_cons_of_mem _ hm'))
    | error e =>
      rcases hok with h | h
      · subst h
        rw [runLoop_cons_error_tol lookup pfx m rest f st e hl]
        exact ih _ (Or.inl rfl)
      · obtain ⟨v, hv⟩ := h m (List.mem_cons_self _ _)
        rw [hv] at hl
        cases hl

theorem runLoop_dlookup_frozen (lookup : String → Except String Val) (pfx : String)
    (ign : Bool) (f : Option String) :
    ∀ (ms : List String) (st st' : List (String × Val) × List String),
      runLoop lookup pfx ms ign f st = .ok st' →
      ∀ k, k ∉ ms.map (fun m => pfx ++ m) → dlookup k st'.1 = dlookup k st.1 := by
  intro ms
  induction ms with
  | nil =>
    intro st st' h k _
    simp only [runLoop, Except.ok.injEq] at h
    subst h
    rfl
  | cons m rest ih =>
    intro st st' h k hk
    simp only [List.map_cons, List.mem_cons, not_or] at hk
    cases hl : lookup m with
    | ok v =>
      rw [runLoop_cons_ok lookup pfx m rest ign f st v hl] at h
      rw [ih _ st' h k (by simpa using hk.2)]
      simp [dlookup_dictInsert, hk.1]
    | error e =>
      cases ign with
      | true =>
        rw [runLoop_cons_error_tol lookup pfx m rest f st e hl] at h
        rw [ih _ st' h k (by simpa using hk.2)]
        simp [dlookup_dictInsert, hk.1]
      | false =>
        rw [runLoop_cons_error_strict lookup pfx m rest f st e hl] at h
        cases h

theorem runLoop_dlookup_written (lookup : String → Except String Val) (pfx : String)
    (ign : Bool) (f : Option String) :
    ∀ (ms : List String) (st st' : List (String × Val) × List String),
      runLoop lookup pfx ms ign f st = .ok st' →
      (ms.map (fun m => pfx ++ m)).Nodup →
      ∀ m ∈ ms, dlookup (pfx ++ m) st'.1 =
        some (match lookup m with | .ok v => v | .error _ => Val.null) := by
  intro ms
  induction ms with
  | nil => intro st st' _ _ m hm; cases hm
  | cons m0 rest ih =>
    intro st st' h hnd m hm
    rw [List.map_cons, List.nodup_cons] at hnd
    rcases List.mem_cons.mp hm with hm0 | hmr
    · subst hm0
      cases hl : lookup m with
      | ok v =>
        rw [runLoop_cons_ok lookup pfx m rest ign f st v hl] at h
        rw [runLoop_dlookup_frozen lookup pfx ign f rest _ st' h _ hnd.1]
        simp [dlookup_dictInsert, hl]
      | error e =>
        cases ign with
        | true =>
          rw [runLoop_cons_error_tol lookup pfx m rest f st e hl] at h
          rw [runLoop_dlookup_frozen lookup pfx true f rest _ st' h _ hnd.1]
          simp [dlookup_dictInsert, hl]
        | false =>
          rw [runLoop_cons_error_strict lookup pfx m rest f st e hl] at h
          cases h
    · cases hl : lookup m0 with
      | ok v =>
        rw [runLoop_cons_ok lookup pfx m0 rest ign f st v hl] at h
        exact ih _ st' h hnd.2 m hmr
      | error e =>
        cases ign with
        | true =>
          rw [runLoop_cons_error_tol lookup pfx m0 rest f st e hl] at h
          exact ih _ st' h hnd.2 m hmr
        | false =>
          rw [runLoop_cons_error_strict lookup pfx m0 rest f st e hl] at h
          cases h

theorem runLoop_warn_suffix (lookup : String → Except String Val) (pfx : String)
    (ign : Bool) (f : Option String) :
    ∀ (ms : List String) (st st' : List (String × Val) × List String),
      runLoop lookup pfx ms ign f st = .ok st' →
      ∃ ws, st'.2 = st.2 ++ ws := by
  intro ms
  induction ms with
  | nil =>
    intro st st' h
    simp only [runLoop, Except.ok.injEq] at h
    subst h
    exact ⟨[], by simp⟩
  | cons m rest ih =>
    intro st st' h
    cases hl : lookup m with
    | ok v =>
      rw [runLoop_cons_ok lookup pfx m rest ign f st v hl] at h
      exact ih (dictInsert st.1 (pfx ++ m) v, st.2) st' h
    | error e =>
      cases ign with
      | true =>
        rw [runLoop_cons_error_tol lookup pfx m rest f st e hl] at h
        obtain ⟨ws, hws⟩ := ih (dictInsert st.1 (pfx ++ m) Val.null,
          st.2 ++ [warnMsg (pfx ++ m) f e]) st' h
        exact ⟨warnMsg (pfx ++ m) f e :: ws, by simpa using hws⟩
      | false =>
        rw [runLoop_cons_error_strict lookup pfx m rest f st e hl] at h
        cases h

theorem runLoop_warn_mem (lookup : String → Except String Val) (pfx : String)
    (f : Option String) :
    ∀ (ms : List String) (st st' : List (String × Val) × List String),
      runLoop lookup pfx ms true f st = .ok st' →
      ∀ m ∈ ms, ∀ e, lookup m = .error e → warnMsg (pfx ++ m) f e ∈ st'.2 := by
  intro ms
  induction ms with
  | nil => intro st st' _ m hm; cases hm
  | cons m0 rest ih =>
    intro st st' h m hm e he
    rcases List.mem_cons.mp hm with hm0 | hmr
    · subst hm0
      rw [runLoop_cons_error_tol lookup pfx m rest f st e he] at h
      obtain ⟨ws, hws⟩ := runLoop_warn_suffix lookup pfx true f rest _ st' h
      rw [hws]
      simp
    · cases hl : lookup m0 with
      | ok v =>
        rw [runLoop_cons_ok lookup pfx m0 rest true f st v hl] at h
        exact ih _ st' h m hmr e he
      | error e0 =>
        rw [runLoop_cons_error_tol lookup pfx m0 rest f st e0 hl] at h
        exact ih _ st' h m hmr e he

theorem runLoop_strict_error (lookup : String → Except String Val) (pfx : String)
    (f : Option String) :
    ∀ (ms : List String) (st : List (String × Val) × List String),
      (∃ m ∈ ms, ∃ e, lookup m = .error e) →
      ∃ m ∈ ms, ∃ e, lookup m = .error e ∧
        runLoop lookup pfx ms false f st = .error ⟨strictMsg (pfx ++ m) f, e⟩ := by
  intro ms
  induction ms with
  | nil => rintro st ⟨m, hm, _⟩; cases hm
  | cons m0 rest ih =>
    intro st hfail
    cases hl : lookup m0 with
    | ok v =>
      have hrest : ∃ m ∈ rest, ∃ e, lookup m = .error e := by
        obtain ⟨m, hm, e, he⟩ := hfail
        rcases List.mem_cons.mp hm with hm0 | hmr
        · subst hm0
          rw [hl] at he
          cases he
        · exact ⟨m, hmr, e, he⟩
      obtain ⟨m, hm, e, he, hrun⟩ := ih (dictInsert st.1 (pfx ++ m0) v, st.2) hrest
      refine ⟨m, List.mem_cons_of_mem _ hm, e, he, ?_⟩
      rw [runLoop_cons_ok lookup pfx m0 rest false f st v hl]
      exact hrun
    | error e =>
      exact ⟨m0, List.mem_cons_self _ _, e, hl,
        runLoop_cons_error_strict lookup pfx m0 rest f st e hl⟩

/-! ### Lemmas about `get_metrics` -/

/-- The full list of keys `get_metrics` builds for a normalized metric list:
the `input_`-prefixed keys in order, then the unprefixed keys in order. -/
def normKeys (ml : List String) : List String :=
  ml.map (fun m => "input_" ++ m) ++ ml

theorem pfx_append_injective (s : String) :
    Function.Injective (fun m => s ++ m) := by
  intro a b h
  have h2 := congrArg String.data h
  simp only [String.data_append] at h2
  exact String.ext (List.append_cancel_left h2)

theorem get_metrics_ok_of (A : GetMetricsArgs)
    (st1 st2 : List (String × Val) × List String)
    (h1 : runLoop A.inputLookup "input_" (normalizeMetricsList A.metrics_list)
      A.ignore_metrics_errors A.filename ([], []) = .ok st1)
    (h2 : runLoop A.outputLookup "" (normalizeMetricsList A.metrics_list)
      A.ignore_metrics_errors A.filename st1 = .ok st2) :
    get_metrics A =
      .ok (if A.average then average_arrays_in_dic st2.1 else st2.1, st2.2) := by
  simp only [get_metrics, h1, h2]

theorem get_metrics_error_input (A : GetMetricsArgs) (e : StrictErr)
    (h1 : runLoop A.inputLookup "input_" (normalizeMetricsList A.metrics_list)
      A.ignore_metrics_errors A.filename ([], []) = .error e) :
    get_metrics A = .error e := by
  simp only [get_metrics, h1]

theorem get_metrics_error_output (A : GetMetricsArgs)
    (st1 : List (String × Val) × List String) (e : StrictErr)
    (h1 : runLoop A.inputLookup "input_" (normalizeMetricsList A.metrics_list)
      A.ignore_metrics_errors A.filename ([], []) = .ok st1)
    (h2 : runLoop A.outputLookup "" (normalizeMetricsList A.metrics_list)
      A.ignore_metrics_errors A.filename st1 = .error e) :
    get_metrics A = .error e := by
  simp only [get_metrics, h1, h2]

theorem get_metrics_ok_inv (A : GetMetricsArgs)
    (d : List (String × Val)) (ws : List String)
    (h : get_metrics A = .ok (d, ws)) :
    ∃ st1 st2,
      runLoop A.inputLookup "input_" (normalizeMetricsList A.metrics_list)
        A.ignore_metrics_errors A.filename ([], []) = .ok st1 ∧
      runLoop A.outputLookup "" (normalizeMetricsList A.metrics_list)
        A.ignore_metrics_errors A.filename st1 = .ok st2 ∧
      d = (if A.average then average_arrays_in_dic st2.1 else st2.1) ∧
      ws = st2.2 := by
  unfold get_metrics at h
  cases hr1 : runLoop A.inputLookup "input_" (normalizeMetricsList A.metrics_list)
      A.ignore_metrics_errors A.filename ([], []) with
  | error e =>
    rw [hr1] at h
    cases h
  | ok st1 =>
    simp only [hr1] at h
    cases hr2 : runLoop A.outputLookup "" (normalizeMetricsList A.metrics_list)
        A.ignore_metrics_errors A.filename st1 with
    | error e =>
      simp only [hr2] at h
      cases h
    | ok st2 =>
      simp only [hr2, Except.ok.injEq, Prod.mk.injEq] at h
      exact ⟨st1, st2, rfl, hr2, h.1.symm, h.2.symm⟩

/-- Keys of the dict built by the two loops, under the freshness hypotheses
that the normalized metric list has no duplicates and no metric equals an
`input_`-prefixed metric. -/
theorem get_metrics_keys (A : GetMetricsArgs)
    (d : List (String × Val)) (ws : List String)
    (h : get_metrics A = .ok (d, ws))
    (hnd : (normalizeMetricsList A.metrics_list).Nodup)
    (hcross : ∀ m ∈ normalizeMetricsList A.metrics_list,
      ("input_" ++ m) ∉ normalizeMetricsList A.metrics_list) :
    dkeys d = normKeys (normalizeMetricsList A.metrics_list) := by
  obtain ⟨st1, st2, h1, h2, hd, _⟩ := get_metrics_ok_inv A d ws h
  have hmapnd : ((normalizeMetricsList A.metrics_list).map (fun m => "input_" ++ m)).Nodup :=
    hnd.map (pfx_append_injective "input_")
  have hk1 : dkeys st1.1 =
      (normalizeMetricsList A.metrics_list).map (fun m => "input_" ++ m) := by
    have hk := runLoop_ok_keys A.inputLookup "input_" A.ignore_metrics_errors A.filename
      (normalizeMetricsList A.metrics_list) ([], []) st1 h1
    rw [foldl_insKey_fresh _ _ hmapnd (by intro k _ hk'; cases hk')] at hk
    simpa [dkeys] using hk
  have hmap_id : (normalizeMetricsList A.metrics_list).map (fun m => "" ++ m) =
      normalizeMetricsList A.metrics_list := by
    have hfn : (fun m : String => "" ++ m) = id := by
      funext m
      exact String.empty_append m
    rw [hfn, List.map_id]
  have hk2 : dkeys st2.1 =
      dkeys st1.1 ++ normalizeMetricsList A.metrics_list := by
    have hk := runLoop_ok_keys A.outputLookup "" A.ignore_metrics_errors A.filename
      (normalizeMetricsList A.metrics_list) st1 st2 h2
    rw [hmap_id] at hk
    have hfresh2 : ∀ k ∈ normalizeMetricsList A.metrics_list, k ∉ dkeys st1.1 := by
      intro k hk' hmem
      rw [hk1] at hmem
      obtain ⟨m, hm, hkm⟩ := List.mem_map.mp hmem
      exact hcross m hm (hkm ▸ hk')
    rw [foldl_insKey_fresh _ _ hnd hfresh2] at hk
    exact hk
  have hdk : dkeys d = dkeys st2.1 := by
    rw [hd]
    by_cases hav : A.average = true
    · rw [hav, if_pos rfl, dkeys_average]
    · rw [if_neg hav]
  rw [hdk, hk2, hk1]
  rfl


/-! ### Last-write-wins for `utt_metrics.update(kwargs)` -/

/-- The value a sequence of dict assignments (in list order) leaves at key
`k`: the value of the last pair whose key is `k`, if any. -/
def wins {α : Type} (ks : List (String × α)) (k : String) : Option α :=
  match ks with
  | [] => none
  | p :: rest =>
    match wins rest k with
    | some v => some v
    | none => if p.1 = k then some p.2 else none

theorem dlookup_foldl_dictInsert {α : Type} :
    ∀ (ks : List (String × α)) (d : List (String × α)) (k : String),
      dlookup k (ks.foldl (fun d p => dictInsert d p.1 p.2) d) =
        match wins ks k with
        | some v => some v
        | none => dlookup k d := by
  intro ks
  induction ks with
  | nil => intro d k; rfl
  | cons p rest ih =>
    intro d k
    rw [List.foldl_cons, ih (dictInsert d p.1 p.2) k]
    cases hw : wins rest k with
    | some v => simp [wins, hw]
    | none =>
      by_cases hp : p.1 = k
      · simp [wins, hw, hp, dlookup_dictInsert]
      · have hk : ¬ (k = p.1) := fun h => hp h.symm
        simp [wins, hw, hp, hk, dlookup_dictInsert]

theorem wins_eq_none {α : Type} (ks : List (String × α)) (k : String)
    (h : ∀ p ∈ ks, p.1 ≠ k) : wins ks k = none := by
  induction ks with
  | nil => rfl
  | cons p rest ih =>
    rw [wins, ih (fun q hq => h q (List.mem_cons_of_mem _ hq))]
    simp [h p (List.mem_cons_self _ _)]

theorem sfx_append_injective (s : String) :
    Function.Injective (fun m => m ++ s) := by
  intro a b h
  have h2 := congrArg String.data h
  simp only [String.data_append] at h2
  exact String.ext (List.append_cancel_right h2)

theorem self_ne_append_imp (m : String) : m ≠ m ++ "_imp" := by
  intro h
  have h2 := congrArg String.length h
  rw [String.length_append] at h2
  have h3 : ("_imp" : String).length = 4 := rfl
  omega

/-! ### Lemmas about `final_report` -/

/-- The scalar stored in row `r` at key `k` (0 when absent or non-scalar;
only used under hypotheses that make the entry a scalar). -/
def scalarAt (r : List (String × Val)) (k : String) : ℚ :=
  match dlookup k r with
  | some (Val.scalar a) => a
  | _ => 0

theorem mem_dfColumns (rows : List (List (String × Val))) (k : String) :
    k ∈ dfColumns rows ↔ ∃ r ∈ rows, k ∈ dkeys r := by
  have hgen : ∀ (rs : List (List (String × Val))) (cols : List String),
      k ∈ rs.foldl (fun cols r => (dkeys r).foldl insKey cols) cols ↔
        k ∈ cols ∨ ∃ r ∈ rs, k ∈ dkeys r := by
    intro rs
    induction rs with
    | nil => intro cols; simp
    | cons r rest ih =>
      intro cols
      rw [List.foldl_cons, ih, mem_foldl_insKey]
      constructor
      · rintro (⟨hc | hr⟩ | ⟨r', hr', hk⟩)
        · exact Or.inl hc
        · exact Or.inr ⟨r, List.mem_cons_self _ _, hr⟩
        · exact Or.inr ⟨r', List.mem_cons_of_mem _ hr', hk⟩
      · rintro (hc | ⟨r', hr', hk⟩)
        · exact Or.inl (Or.inl hc)
        · rcases List.mem_cons.mp hr' with h | h
          · exact Or.inl (Or.inr (h ▸ hk))
          · exact Or.inr ⟨r', h, hk⟩
  rw [dfColumns, hgen]
  simp

theorem reportLoop_cons_ok (rows : List (List (String × Val))) (m : String)
    (rest : List String) (acc : List (String × Option ℚ))
    (col icol : List (Option Val))
    (hcol : dfGetCol rows m = .ok col)
    (hicol : dfGetCol rows ("input_" ++ m) = .ok icol) :
    reportLoop rows (m :: rest) acc =
      reportLoop rows rest
        (dictInsert (dictInsert acc m (colMean col)) (m ++ "_imp")
          (colMean (List.zipWith subCell col icol))) := by
  simp only [reportLoop, hcol, hicol]

theorem reportLoop_cons_error (rows : List (List (String × Val))) (m : String)
    (rest : List String) (acc : List (String × Option ℚ))
    (e : String) (hcol : dfGetCol rows m = .error e) :
    reportLoop rows (m :: rest) acc = .error e := by
  simp only [reportLoop, hcol]

theorem reportLoop_isOk (rows : List (List (String × Val))) :
    ∀ (ms : List String) (acc : List (String × Option ℚ)),
      (∀ m ∈ ms, m ∈ dfColumns rows ∧ ("input_" ++ m) ∈ dfColumns rows) →
      ∃ res, reportLoop rows ms acc = .ok res := by
  intro ms
  induction ms with
  | nil => intro acc _; exact ⟨acc, rfl⟩
  | cons m rest ih =>
    intro acc hcols
    have hm := hcols m (List.mem_cons_self _ _)
    rw [reportLoop_cons_ok rows m rest acc _ _
      (by rw [dfGetCol, if_pos hm.1]) (by rw [dfGetCol, if_pos hm.2])]
    exact ih _ (fun m' hm' => hcols m' (List.mem_cons_of_mem _ hm'))

theorem reportLoop_frozen (rows : List (List (String × Val))) :
    ∀ (ms : List String) (acc res : List (String × Option ℚ)),
      reportLoop rows ms acc = .ok res →
      ∀ k, (∀ m ∈ ms, k ≠ m ∧ k ≠ m ++ "_imp") →
      dlookup k res = dlookup k acc := by
  intro ms
  induction ms with
  | nil =>
    intro acc res h k _
    simp only [reportLoop, Except.ok.injEq] at h
    subst h
    rfl
  | cons m rest ih =>
    intro acc res h k hk
    cases hcol : dfGetCol rows m with
    | error e =>
      rw [reportLoop_cons_error rows m rest acc e hcol] at h
      cases h
    | ok col =>
      cases hicol : dfGetCol rows ("input_" ++ m) with
      | error e =>
        simp only [reportLoop, hcol, hicol] at h
        cases h
      | ok icol =>
        rw [reportLoop_cons_ok rows m rest acc col icol hcol hicol] at h
        have hkm := hk m (List.mem_cons_self _ _)
        rw [ih _ res h k (fun m' hm' => hk m' (List.mem_cons_of_mem _ hm'))]
        rw [dlookup_dictInsert, if_neg hkm.2, dlookup_dictInsert, if_neg hkm.1]

theorem reportLoop_written (rows : List (List (String × Val))) :
    ∀ (ms : List String) (acc res : List (String × Option ℚ)),
      reportLoop rows ms acc = .ok res →
      ms.Nodup →
      (∀ m ∈ ms, ∀ m' ∈ ms, m ++ "_imp" ≠ m') →
      ∀ m ∈ ms, ∃ col icol,
        dfGetCol rows m = .ok col ∧
        dfGetCol rows ("input_" ++ m) = .ok icol ∧
        dlookup m res = some (colMean col) ∧
        dlookup (m ++ "_imp") res =
          some (colMean (List.zipWith subCell col icol)) := by
  intro ms
  induction ms with
  | nil => intro acc res _ _ _ m hm; cases hm
  | cons m0 rest ih =>
    intro acc res h hnd himp m hm
    have hnd' := List.nodup_cons.mp hnd
    cases hcol : dfGetCol rows m0 with
    | error e =>
      rw [reportLoop_cons_error rows m0 rest acc e hcol] at h
      cases h
    | ok col =>
      cases hicol : dfGetCol rows ("input_" ++ m0) with
      | error e =>
        simp only [reportLoop, hcol, hicol] at h
        cases h
      | ok icol =>
        rw [reportLoop_cons_ok rows m0 rest acc col icol hcol hicol] at h
        rcases List.mem_cons.mp hm with hm0 | hmr
        · subst hm0
          refine ⟨col, icol, hcol, hicol, ?_, ?_⟩
          · rw [reportLoop_frozen rows rest _ res h m ?_]
            · rw [dlookup_dictInsert,
                if_neg (fun hc => self_ne_append_imp m hc),
                dlookup_dictInsert, if_pos rfl]
            · intro m' hm'
              constructor
              · intro hc
                exact hnd'.1 (hc ▸ hm')
              · intro hc
                exact himp m' (List.mem_cons_of_mem _ hm') m
                  (List.mem_cons_self _ _) hc.symm
          · rw [reportLoop_frozen rows rest _ res h (m ++ "_imp") ?_]
            · rw [dlookup_dictInsert, if_pos rfl]
            · intro m' hm'
              constructor
              · intro hc
                exact himp m (List.mem_cons_self _ _) m'
                  (List.mem_cons_of_mem _ hm') hc
              · intro hc
                exact hnd'.1 ((sfx_append_injective "_imp" hc) ▸ hm')
        · exact ih _ res h hnd'.2
            (fun a ha b hb => himp a (List.mem_cons_of_mem _ ha) b
              (List.mem_cons_of_mem _ hb)) m hmr


theorem filterMap_scalar_map (xs : List ℚ) :
    (xs.map (fun q => some (Val.scalar q))).filterMap (fun c =>
      match c with
      | some (Val.scalar q) => some q
      | _ => none) = xs := by
  induction xs with
  | nil => rfl
  | cons q rest ih => simpa [List.filterMap_cons] using ih

theorem colMean_of_scalars (xs : List ℚ) (hne : xs ≠ []) :
    colMean (xs.map (fun q => some (Val.scalar q))) = some (xs.sum / xs.length) := by
  unfold colMean
  rw [filterMap_scalar_map]
  rw [if_neg (fun h => hne (List.length_eq_zero.mp h))]

theorem final_report_ok_of (ml : List String) (rows : List (List (String × Val)))
    (dp : Option String) (res : List (String × Option ℚ))
    (h : reportLoop rows ml [] = .ok res) :
    final_report ml rows dp =
      .ok (res, dp.map (fun p => (normDumpPath p, res))) := by
  cases dp with
  | none => simp only [final_report, h, Option.map_none']
  | some p => simp only [final_report, h, Option.map_some']

theorem final_report_error_of (ml : List String) (rows : List (List (String × Val)))
    (dp : Option String) (e : String)
    (h : reportLoop rows ml [] = .error e) :
    final_report ml rows dp = .error e := by
  cases dp with
  | none => simp only [final_report, h]
  | some p => simp only [final_report, h]

theorem final_report_ok_inv (ml : List String) (rows : List (List (String × Val)))
    (dp : Option String) (res : List (String × Option ℚ))
    (w : Option (String × List (String × Option ℚ)))
    (h : final_report ml rows dp = .ok (res, w)) :
    reportLoop rows ml [] = .ok res ∧
      w = dp.map (fun p => (normDumpPath p, res)) := by
  cases hr : reportLoop rows ml [] with
  | error e =>
    rw [final_report_error_of ml rows dp e hr] at h
    cases h
  | ok res' =>
    rw [final_report_ok_of ml rows dp res' hr] at h
    simp only [Except.ok.injEq, Prod.mk.injEq] at h
    obtain ⟨h1, h2⟩ := h
    subst h1
    exact ⟨rfl, h2.symm⟩


/-! ### Lemmas about `MetricTracker.call` and `callMany` -/

/-- The row one `record` call appends, as a function of the stored
configuration and the call arguments only: `none` when `get_metrics` raises. -/
def rowOf (cfg : TrackerCfg) (c : CallInput) : Option (List (String × Val)) :=
  match get_metrics (mkArgs cfg c) with
  | .ok (utt, _) => some (c.kwargs.foldl (fun d p => dictInsert d p.1 p.2) utt)
  | .error _ => none

theorem call_ok_of_get (tr : MetricTracker) (c : CallInput)
    (utt : List (String × Val)) (ws : List String)
    (h : get_metrics (mkArgs tr.cfg c) = .ok (utt, ws)) :
    tr.call c =
      .ok ⟨tr.cfg, tr.series_list ++
        [c.kwargs.foldl (fun d p => dictInsert d p.1 p.2) utt]⟩ := by
  simp only [MetricTracker.call, h]

theorem call_error_of_get (tr : MetricTracker) (c : CallInput) (e : StrictErr)
    (h : get_metrics (mkArgs tr.cfg c) = .error e) :
    tr.call c = .error e := by
  simp only [MetricTracker.call, h]

theorem call_ok_inv (tr : MetricTracker) (c : CallInput) (tr' : MetricTracker)
    (h : tr.call c = .ok tr') :
    ∃ utt ws, get_metrics (mkArgs tr.cfg c) = .ok (utt, ws) ∧
      tr' = ⟨tr.cfg, tr.series_list ++
        [c.kwargs.foldl (fun d p => dictInsert d p.1 p.2) utt]⟩ := by
  cases hg : get_metrics (mkArgs tr.cfg c) with
  | error e =>
    rw [call_error_of_get tr c e hg] at h
    cases h
  | ok r =>
    obtain ⟨utt, ws⟩ := r
    rw [call_ok_of_get tr c utt ws hg] at h
    cases h
    exact ⟨utt, ws, rfl, rfl⟩

theorem call_ok_of_rowOf (tr : MetricTracker) (c : CallInput)
    (row : List (String × Val)) (h : rowOf tr.cfg c = some row) :
    tr.call c = .ok ⟨tr.cfg, tr.series_list ++ [row]⟩ := by
  unfold rowOf at h
  cases hg : get_metrics (mkArgs tr.cfg c) with
  | error e =>
    rw [hg] at h
    cases h
  | ok r =>
    obtain ⟨utt, ws⟩ := r
    rw [hg] at h
    simp only [Option.some.injEq] at h
    rw [call_ok_of_get tr c utt ws hg, h]

theorem callMany_cons_ok (tr tr1 : MetricTracker) (c : CallInput)
    (cs : List CallInput) (h : tr.call c = .ok tr1) :
    callMany tr (c :: cs) = callMany tr1 cs := by
  simp only [callMany, h]


theorem map_empty_append (ml : List String) :
    ml.map (fun m => "" ++ m) = ml := by
  have hfn : (fun m : String => "" ++ m) = id := by
    funext m
    exact String.empty_append m
  rw [hfn, List.map_id]

/-! ### Claim theorems -/

/-- Claim C2: for every call to `get_metrics` in which no metric lookup fails,
the returned mapping contains exactly the keys `m` and `"input_" + m` for each
`m` in the normalized requested metric list — the `input_`-prefixed keys then
the plain keys, `2 × |requested metrics|` keys in total.  The freshness
hypotheses (no duplicate metric names, no metric name equal to an
`input_`-prefixed one) hold for every real metric selection, in particular for
`["si_sdr"]` and for the `"all"` sentinel. -/
theorem claim_C2_keys_exact (A : GetMetricsArgs)
    (hnd : (normalizeMetricsList A.metrics_list).Nodup)
    (hcross : ∀ m ∈ normalizeMetricsList A.metrics_list,
      ("input_" ++ m) ∉ normalizeMetricsList A.metrics_list)
    (hin : ∀ m ∈ normalizeMetricsList A.metrics_list, ∃ v, A.inputLookup m = .ok v)
    (hout : ∀ m ∈ normalizeMetricsList A.metrics_list, ∃ v, A.outputLookup m = .ok v) :
    ∃ d ws, get_metrics A = .ok (d, ws) ∧
      dkeys d = normKeys (normalizeMetricsList A.metrics_list) ∧
      (dkeys d).length = 2 * (normalizeMetricsList A.metrics_list).length := by
  obtain ⟨st1, h1⟩ := runLoop_isOk A.inputLookup "input_" A.ignore_metrics_errors
    A.filename (normalizeMetricsList A.metrics_list) ([], []) (Or.inr hin)
  obtain ⟨st2, h2⟩ := runLoop_isOk A.outputLookup "" A.ignore_metrics_errors
    A.filename (normalizeMetricsList A.metrics_list) st1 (Or.inr hout)
  have hok := get_metrics_ok_of A st1 st2 h1 h2
  have hkeys := get_metrics_keys A _ _ hok hnd hcross
  refine ⟨_, _, hok, hkeys, ?_⟩
  rw [hkeys]
  simp only [normKeys, List.length_append, List.length_map]
  omega

/-- Concrete input for the C2 witness: the `"all"` sentinel, every lookup
succeeding. -/
def C2args : GetMetricsArgs :=
  ⟨fun _ => .ok (.scalar 1), fun _ => .ok (.scalar 2), .str "all", true, false, none⟩

theorem claim_C2_witness :
    ∃ d ws, get_metrics C2args = .ok (d, ws) ∧
      dkeys d = normKeys (normalizeMetricsList (MetricsListArg.str "all")) ∧
      (dkeys d).length = 12 := by
  obtain ⟨d, ws, hok, hkeys, hlen⟩ := claim_C2_keys_exact C2args (by decide)
    (by decide) (fun m _ => ⟨Val.scalar 1, rfl⟩) (fun m _ => ⟨Val.scalar 2, rfl⟩)
  exact ⟨d, ws, hok, hkeys, by rw [hlen]; rfl⟩

/-- Claim C9: with tolerant mode on and averaging off, `get_metrics` always
succeeds, its keys are exactly the `input_`-prefixed and plain requested
metric names, and each key holds the looked-up value — `Val.null` exactly when
that lookup failed.  No key is ever removed by a tolerated failure. -/
theorem claim_C9_tolerant_keys (A : GetMetricsArgs)
    (hig : A.ignore_metrics_errors = true)
    (hav : A.average = false)
    (hnd : (normalizeMetricsList A.metrics_list).Nodup)
    (hcross : ∀ m ∈ normalizeMetricsList A.metrics_list,
      ("input_" ++ m) ∉ normalizeMetricsList A.metrics_list) :
    ∃ d ws, get_metrics A = .ok (d, ws) ∧
      dkeys d = normKeys (normalizeMetricsList A.metrics_list) ∧
      ∀ m ∈ normalizeMetricsList A.metrics_list,
        dlookup ("input_" ++ m) d =
          some (match A.inputLookup m with | .ok v => v | .error _ => Val.null) ∧
        dlookup m d =
          some (match A.outputLookup m with | .ok v => v | .error _ => Val.null) := by
  obtain ⟨st1, h1⟩ := runLoop_isOk A.inputLookup "input_" A.ignore_metrics_errors
    A.filename (normalizeMetricsList A.metrics_list) ([], []) (Or.inl hig)
  obtain ⟨st2, h2⟩ := runLoop_isOk A.outputLookup "" A.ignore_metrics_errors
    A.filename (normalizeMetricsList A.metrics_list) st1 (Or.inl hig)
  have hok := get_metrics_ok_of A st1 st2 h1 h2
  have hkeys := get_metrics_keys A _ _ hok hnd hcross
  have hmapnd : ((normalizeMetricsList A.metrics_list).map
      (fun m => "input_" ++ m)).Nodup :=
    hnd.map (pfx_append_injective "input_")
  have hnd0 : ((normalizeMetricsList A.metrics_list).map
      (fun m => "" ++ m)).Nodup := by
    rw [map_empty_append]
    exact hnd
  refine ⟨_, _, hok, hkeys, ?_⟩
  intro m hm
  have hdval : ∀ k v, dlookup k st2.1 = some v →
      dlookup k (if A.average then average_arrays_in_dic st2.1 else st2.1) = some v := by
    intro k v hv
    rw [hav, if_neg (by simp)]
    exact hv
  constructor
  · have hw1 := runLoop_dlookup_written A.inputLookup "input_" A.ignore_metrics_errors
      A.filename (normalizeMetricsList A.metrics_list) ([], []) st1 h1 hmapnd m hm
    have hfr : dlookup ("input_" ++ m) st2.1 = dlookup ("input_" ++ m) st1.1 := by
      apply runLoop_dlookup_frozen A.outputLookup "" A.ignore_metrics_errors
        A.filename (normalizeMetricsList A.metrics_list) st1 st2 h2
      rw [map_empty_append]
      exact hcross m hm
    exact hdval _ _ (hfr.trans hw1)
  · have hw2 := runLoop_dlookup_written A.outputLookup "" A.ignore_metrics_errors
      A.filename (normalizeMetricsList A.metrics_list) st1 st2 h2 hnd0 m hm
    rw [String.empty_append] at hw2
    exact hdval _ _ hw2

/-- Concrete input for the C9 witness: tolerant mode, `si_sdr` failing on the
input side, everything else succeeding. -/
def C9args : GetMetricsArgs :=
  ⟨fun m => if m = "si_sdr" then .error "boom" else .ok (.scalar 1),
    fun _ => .ok (.scalar 2), .list ["si_sdr", "stoi"], false, true, some "a.wav"⟩

theorem claim_C9_witness :
    ∃ d ws, get_metrics C9args = .ok (d, ws) ∧
      dkeys d = ["input_si_sdr", "input_stoi", "si_sdr", "stoi"] ∧
      dlookup "input_si_sdr" d = some Val.null ∧
      dlookup "input_stoi" d = some (Val.scalar 1) ∧
      dlookup "si_sdr" d = some (Val.scalar 2) := by
  obtain ⟨d, ws, hok, hkeys, hvals⟩ := claim_C9_tolerant_keys C9args rfl rfl
    (by decide) (by decide)
  have h1 := hvals "si_sdr" (by decide)
  have h2 := hvals "stoi" (by decide)
  refine ⟨d, ws, hok, hkeys, ?_, ?_, ?_⟩
  · simpa using h1.1
  · simpa using h2.1
  · simpa using h1.2

/-- Claim C3: with tolerant mode off, if any single metric lookup raises,
`get_metrics` raises a `RuntimeError` whose message is exactly
`"Error computing " + key + " for " + (filename or "<unknown file>")` — so it
contains the failing key (prefix + metric) and the label — with the original
exception chained as its cause.  The failing key is an `input_`-prefixed key
whose input lookup raised, or a plain key whose output lookup raised. -/
theorem claim_C3_strict_error (A : GetMetricsArgs)
    (hig : A.ignore_metrics_errors = false)
    (hfail : ∃ m ∈ normalizeMetricsList A.metrics_list,
      (∃ e, A.inputLookup m = .error e) ∨ (∃ e, A.outputLookup m = .error e)) :
    ∃ key cause,
      get_metrics A =
        .error ⟨"Error computing " ++ key ++ " for " ++ fileLabel A.filename, cause⟩ ∧
      ((∃ m ∈ normalizeMetricsList A.metrics_list,
          key = "input_" ++ m ∧ A.inputLookup m = .error cause) ∨
       (∃ m ∈ normalizeMetricsList A.metrics_list,
          key = m ∧ A.outputLookup m = .error cause)) := by
  by_cases hin : ∃ m ∈ normalizeMetricsList A.metrics_list,
      ∃ e, A.inputLookup m = .error e
  · obtain ⟨m, hm, e, he, hrun⟩ := runLoop_strict_error A.inputLookup "input_"
      A.filename (normalizeMetricsList A.metrics_list) ([], []) hin
    refine ⟨"input_" ++ m, e, ?_, Or.inl ⟨m, hm, rfl, he⟩⟩
    apply get_metrics_error_input
    rw [hig]
    exact hrun
  · have hinok : ∀ m ∈ normalizeMetricsList A.metrics_list,
        ∃ v, A.inputLookup m = .ok v := by
      intro m hm
      cases hl : A.inputLookup m with
      | ok v => exact ⟨v, rfl⟩
      | error e => exact absurd ⟨m, hm, e, hl⟩ hin
    have hout : ∃ m ∈ normalizeMetricsList A.metrics_list,
        ∃ e, A.outputLookup m = .error e := by
      obtain ⟨m, hm, hio⟩ := hfail
      rcases hio with ⟨e, he⟩ | ⟨e, he⟩
      · exact absurd ⟨m, hm, e, he⟩ hin
      · exact ⟨m, hm, e, he⟩
    obtain ⟨st1, h1⟩ := runLoop_isOk A.inputLookup "input_" A.ignore_metrics_errors
      A.filename (normalizeMetricsList A.metrics_list) ([], []) (Or.inr hinok)
    obtain ⟨m, hm, e, he, hrun⟩ := runLoop_strict_error A.outputLookup ""
      A.filename (normalizeMetricsList A.metrics_list) st1 hout
    refine ⟨m, e, ?_, Or.inr ⟨m, hm, rfl, he⟩⟩
    have hmsg : ("" : String) ++ m = m := String.empty_append m
    rw [hmsg] at hrun
    apply get_metrics_error_output A st1
    · exact h1
    · rw [hig]
      exact hrun

/-- Concrete input for the C3 witness: strict mode, the output `pesq` lookup
raising, no filename label. -/
def C3args : GetMetricsArgs :=
  ⟨fun _ => .ok (.scalar 1),
    fun m => if m = "pesq" then .error "pesq backend unavailable" else .ok (.scalar 2),
    .str "pesq", true, false, none⟩

theorem claim_C3_witness :
    ∃ key cause,
      get_metrics C3args =
        .error ⟨"Error computing " ++ key ++ " for " ++ fileLabel none, cause⟩ ∧
      ((∃ m ∈ normalizeMetricsList C3args.metrics_list,
          key = "input_" ++ m ∧ C3args.inputLookup m = .error cause) ∨
       (∃ m ∈ normalizeMetricsList C3args.metrics_list,
          key = m ∧ C3args.outputLookup m = .error cause)) := by
  exact claim_C3_strict_error C3args rfl
    ⟨"pesq", by decide, Or.inr ⟨"pesq backend unavailable", rfl⟩⟩

/-- Claim C4: with tolerant mode on, `get_metrics` always succeeds; every
metric whose lookup raised has its key set to `Val.null` in the returned row,
and a warning mentioning the key, the label (or the unknown-file placeholder)
and the original error text is emitted; all the other keys are present too
(the key list is always the full one). -/
theorem claim_C4_tolerant (A : GetMetricsArgs)
    (hig : A.ignore_metrics_errors = true)
    (hnd : (normalizeMetricsList A.metrics_list).Nodup)
    (hcross : ∀ m ∈ normalizeMetricsList A.metrics_list,
      ("input_" ++ m) ∉ normalizeMetricsList A.metrics_list) :
    ∃ d ws, get_metrics A = .ok (d, ws) ∧
      dkeys d = normKeys (normalizeMetricsList A.metrics_list) ∧
      ∀ m ∈ normalizeMetricsList A.metrics_list,
        (∀ e, A.inputLookup m = .error e →
          dlookup ("input_" ++ m) d = some Val.null ∧
          warnMsg ("input_" ++ m) A.filename e ∈ ws) ∧
        (∀ e, A.outputLookup m = .error e →
          dlookup m d = some Val.null ∧
          warnMsg m A.filename e ∈ ws) := by
  obtain ⟨st1, h1⟩ := runLoop_isOk A.inputLookup "input_" A.ignore_metrics_errors
    A.filename (normalizeMetricsList A.metrics_list) ([], []) (Or.inl hig)
  obtain ⟨st2, h2⟩ := runLoop_isOk A.outputLookup "" A.ignore_metrics_errors
    A.filename (normalizeMetricsList A.metrics_list) st1 (Or.inl hig)
  have hok := get_metrics_ok_of A st1 st2 h1 h2
  have hkeys := get_metrics_keys A _ _ hok hnd hcross
  have hmapnd : ((normalizeMetricsList A.metrics_list).map
      (fun m => "input_" ++ m)).Nodup :=
    hnd.map (pfx_append_injective "input_")
  have hnd0 : ((normalizeMetricsList A.metrics_list).map
      (fun m => "" ++ m)).Nodup := by
    rw [map_empty_append]
    exact hnd
  have hdval : ∀ k, dlookup k st2.1 = some Val.null →
      dlookup k (if A.average then average_arrays_in_dic st2.1 else st2.1) =
        some Val.null := by
    intro k hv
    by_cases ha : A.average = true
    · rw [ha, if_pos rfl, dlookup_average, hv]
      rfl
    · rw [if_neg ha]
      exact hv
  refine ⟨_, _, hok, hkeys, ?_⟩
  intro m hm
  constructor
  · intro e he
    constructor
    · have hw1 := runLoop_dlookup_written A.inputLookup "input_"
        A.ignore_metrics_errors A.filename (normalizeMetricsList A.metrics_list)
        ([], []) st1 h1 hmapnd m hm
      rw [he] at hw1
      have hfr : dlookup ("input_" ++ m) st2.1 = dlookup ("input_" ++ m) st1.1 := by
        apply runLoop_dlookup_frozen A.outputLookup "" A.ignore_metrics_errors
          A.filename (normalizeMetricsList A.metrics_list) st1 st2 h2
        rw [map_empty_append]
        exact hcross m hm
      exact hdval _ (hfr.trans hw1)
    · have hmem1 := runLoop_warn_mem A.inputLookup "input_" A.filename
        (normalizeMetricsList A.metrics_list) ([], []) st1 (hig ▸ h1) m hm e he
      obtain ⟨ws2, hws2⟩ := runLoop_warn_suffix A.outputLookup ""
        A.ignore_metrics_errors A.filename (normalizeMetricsList A.metrics_list)
        st1 st2 h2
      rw [hws2]
      exact List.mem_append_left _ hmem1
  · intro e he
    constructor
    · have hw2 := runLoop_dlookup_written A.outputLookup ""
        A.ignore_metrics_errors A.filename (normalizeMetricsList A.metrics_list)
        st1 st2 h2 hnd0 m hm
      rw [he, String.empty_append] at hw2
      exact hdval _ hw2
    · have hmem2 := runLoop_warn_mem A.outputLookup "" A.filename
        (normalizeMetricsList A.metrics_list) st1 st2 (hig ▸ h2) m hm e he
      rw [String.empty_append] at hmem2
      exact hmem2

/-- Concrete input for the C4 witness: tolerant mode, the input `stoi` lookup
raising, averaging on, an empty filename (so the unknown-file placeholder is
used in the warning). -/
def C4args : GetMetricsArgs :=
  ⟨fun m => if m = "stoi" then .error "stoi length mismatch" else .ok (.scalar 3),
    fun _ => .ok (.scalar 4), .list ["stoi", "sdr"], true, true, some ""⟩

theorem claim_C4_witness :
    ∃ d ws, get_metrics C4args = .ok (d, ws) ∧
      dkeys d = ["input_stoi", "input_sdr", "stoi", "sdr"] ∧
      dlookup "input_stoi" d = some Val.null ∧
      ("Error computing input_stoi for <unknown file>, ignoring. " ++
        "Error was: stoi length mismatch") ∈ ws := by
  obtain ⟨d, ws, hok, hkeys, hvals⟩ := claim_C4_tolerant C4args rfl
    (by decide) (by decide)
  have h1 := (hvals "stoi" (by decide)).1 "stoi length mismatch" rfl
  refine ⟨d, ws, hok, hkeys, h1.1, ?_⟩
  have h2 := h1.2
  simpa [warnMsg, fileLabel] using h2

instance {e a : Type} [DecidableEq e] [DecidableEq a] :
    DecidableEq (Except e a) := fun x y =>
  match x, y with
  | .ok u, .ok v =>
    if h : u = v then .isTrue (by rw [h])
    else .isFalse (by intro hc; cases hc; exact h rfl)
  | .error u, .error v =>
    if h : u = v then .isTrue (by rw [h])
    else .isFalse (by intro hc; cases hc; exact h rfl)
  | .ok _, .error _ => .isFalse (by intro hc; cases hc)
  | .error _, .ok _ => .isFalse (by intro hc; cases hc)

/-- Claim C5: `record` returns no value (modelled by state passing); when the
underlying `get_metrics` call succeeds, exactly one row is appended (the row
collection grows by exactly one and the configuration is untouched), and when
it raises, the call re-raises and no partial row is appended (the caller's
tracker state is unchanged). -/
theorem claim_C5_record (tr : MetricTracker) (c : CallInput) :
    (∀ utt ws, get_metrics (mkArgs tr.cfg c) = .ok (utt, ws) →
      ∃ row, tr.call c = .ok ⟨tr.cfg, tr.series_list ++ [row]⟩ ∧
        (tr.series_list ++ [row]).length = tr.series_list.length + 1) ∧
    (∀ e, get_metrics (mkArgs tr.cfg c) = .error e → tr.call c = .error e) := by
  constructor
  · intro utt ws hok
    exact ⟨_, call_ok_of_get tr c utt ws hok, by simp⟩
  · intro e he
    exact call_error_of_get tr c e he

/-- Concrete tracker for the C5 witness. -/
def c5tr : MetricTracker := ⟨⟨8000, ["sdr"], true, false, false⟩, []⟩

/-- A succeeding call for the C5 witness. -/
def c5ok : CallInput := ⟨fun _ => .ok (.scalar 1), fun _ => .ok (.scalar 2), none, []⟩

/-- A failing call for the C5 witness. -/
def c5err : CallInput := ⟨fun _ => .error "boom", fun _ => .ok (.scalar 2), none, []⟩

theorem claim_C5_witness :
    (∃ row, MetricTracker.call c5tr c5ok = .ok ⟨c5tr.cfg, c5tr.series_list ++ [row]⟩ ∧
      (c5tr.series_list ++ [row]).length = c5tr.series_list.length + 1) ∧
    MetricTracker.call c5tr c5err =
      .error ⟨"Error computing input_sdr for <unknown file>", "boom"⟩ := by
  constructor
  · exact (claim_C5_record c5tr c5ok).1
      [("input_sdr", Val.scalar 1), ("sdr", Val.scalar 2)] [] (by decide)
  · exact (claim_C5_record c5tr c5err).2
      ⟨"Error computing input_sdr for <unknown file>", "boom"⟩ (by decide)

/-- Claim C7: a sequence of successful `record` calls appends exactly one row
per call, in call order, with no reordering and no deduplication; the previous
row collection stays as an untouched left segment (the collection only ever
grows) and the configuration never changes. -/
theorem claim_C7_order (cs : List CallInput) :
    ∀ (tr : MetricTracker),
      (∀ c ∈ cs, (rowOf tr.cfg c).isSome) →
      ∃ tr', callMany tr cs = .ok tr' ∧ tr'.cfg = tr.cfg ∧
        tr'.series_list = tr.series_list ++ cs.map (fun c => (rowOf tr.cfg c).getD []) ∧
        tr'.series_list.length = tr.series_list.length + cs.length := by
  induction cs with
  | nil =>
    intro tr _
    exact ⟨tr, rfl, rfl, by simp, by simp⟩
  | cons c cs ih =>
    intro tr hsome
    obtain ⟨row, hrow⟩ := Option.isSome_iff_exists.mp (hsome c (List.mem_cons_self _ _))
    have hcall := call_ok_of_rowOf tr c row hrow
    set tr1 : MetricTracker := ⟨tr.cfg, tr.series_list ++ [row]⟩ with htr1
    have hsome' : ∀ c' ∈ cs, (rowOf tr1.cfg c').isSome := by
      intro c' hc'
      exact hsome c' (List.mem_cons_of_mem _ hc')
    obtain ⟨tr', hmany, hcfg, hser, hlen⟩ := ih tr1 hsome'
    refine ⟨tr', ?_, ?_, ?_, ?_⟩
    · rw [callMany_cons_ok tr tr1 c cs hcall]
      exact hmany
    · exact hcfg
    · rw [hser]
      simp only [htr1, List.map_cons, hrow, Option.getD_some, List.append_assoc,
        List.singleton_append]
    · rw [hlen]
      have h1 : tr1.series_list.length = tr.series_list.length + 1 := by
        rw [htr1]
        simp
      rw [h1, List.length_cons]
      omega

/-- Concrete inputs for the C7 witness: two successful calls. -/
def c7call1 : CallInput :=
  ⟨fun _ => .ok (.scalar 1), fun _ => .ok (.scalar 2), none, []⟩

/-- Second call for the C7 witness, with different values. -/
def c7call2 : CallInput :=
  ⟨fun _ => .ok (.scalar 5), fun _ => .ok (.scalar 6), none, []⟩

theorem claim_C7_witness :
    ∃ tr', callMany c5tr [c7call1, c7call2] = .ok tr' ∧ tr'.cfg = c5tr.cfg ∧
      tr'.series_list = c5tr.series_list ++
        [c7call1, c7call2].map (fun c => (rowOf c5tr.cfg c).getD []) ∧
      tr'.series_list.length = c5tr.series_list.length + 2 := by
  exact claim_C7_order [c7call1, c7call2] c5tr (by decide)

theorem mem_dkeys_of_dlookup {α : Type} (k : String) (r : List (String × α)) (v : α)
    (h : dlookup k r = some v) : k ∈ dkeys r := by
  induction r with
  | nil => cases h
  | cons p rest ih =>
    simp only [dlookup] at h
    simp only [dkeys, List.map_cons, List.mem_cons]
    by_cases hp : p.1 = k
    · exact Or.inl hp.symm
    · rw [if_neg hp] at h
      exact Or.inr (ih h)

/-- Concrete tracker for the C1 counterexample. -/
def c1tr : MetricTracker := ⟨⟨16000, ["si_sdr"], true, false, false⟩, []⟩

/-- The C1 counterexample call: `filename="a.wav"` is passed and there are no
other keyword arguments — exactly the spec example `filename="a.wav"`. -/
def c1call : CallInput :=
  ⟨fun _ => .ok (.scalar 1), fun _ => .ok (.scalar 2), some "a.wav", []⟩

/-- Claim C1 counterexample: calling `record` with `filename="a.wav"` (the
spec example of an "extra field") appends a row that has NO `"filename"` key,
and `"filename"` is not a column of the CSV export either: the `filename`
keyword is captured by the named parameter of `__call__`, used only as a
diagnostic label for `get_metrics`, and never merged into the row. -/
theorem claim_C1_counterexample :
    MetricTracker.call c1tr c1call =
      .ok ⟨⟨16000, ["si_sdr"], true, false, false⟩,
        [[("input_si_sdr", Val.scalar 1), ("si_sdr", Val.scalar 2)]]⟩ ∧
    dlookup "filename"
      [("input_si_sdr", Val.scalar 1), ("si_sdr", Val.scalar 2)] = none ∧
    "filename" ∉ (MetricTracker.to_csv ⟨⟨16000, ["si_sdr"], true, false, false⟩,
      [[("input_si_sdr", Val.scalar 1), ("si_sdr", Val.scalar 2)]]⟩).1 := by
  refine ⟨by decide, by decide, by decide⟩

/-- Claim C1 as amended: every extra keyword field passed through `**kwargs`
(which excludes the named `filename` parameter) appears verbatim as a key of
the appended row, with the caller-supplied value winning on a collision with
a computed metric key (last write wins); the `filename` argument itself never
becomes a row key (as long as neither a kwarg nor a metric key is literally
named `"filename"`). -/
theorem claim_C1_amended (tr : MetricTracker) (c : CallInput) (tr' : MetricTracker)
    (h : tr.call c = .ok tr')
    (hf : ∀ p ∈ c.kwargs, p.1 ≠ "filename")
    (hm : ∀ m ∈ tr.cfg.metrics_list, m ≠ "filename" ∧ ("input_" ++ m) ≠ "filename") :
    ∃ row, tr'.series_list = tr.series_list ++ [row] ∧
      (∀ k v, wins c.kwargs k = some v → dlookup k row = some v) ∧
      dlookup "filename" row = none := by
  obtain ⟨utt, ws, hg, htr'⟩ := call_ok_inv tr c tr' h
  refine ⟨c.kwargs.foldl (fun d p => dictInsert d p.1 p.2) utt, by rw [htr'], ?_, ?_⟩
  · intro k v hwin
    rw [dlookup_foldl_dictInsert, hwin]
  · rw [dlookup_foldl_dictInsert, wins_eq_none c.kwargs "filename" hf]
    show dlookup "filename" utt = none
    apply dlookup_eq_none_of_not_mem_dkeys
    obtain ⟨st1, st2, h1, h2, hd, hws⟩ := get_metrics_ok_inv (mkArgs tr.cfg c) utt ws hg
    have hk1 := runLoop_ok_keys (mkArgs tr.cfg c).inputLookup "input_"
      (mkArgs tr.cfg c).ignore_metrics_errors (mkArgs tr.cfg c).filename
      (normalizeMetricsList (mkArgs tr.cfg c).metrics_list) ([], []) st1 h1
    have hk2 := runLoop_ok_keys (mkArgs tr.cfg c).outputLookup ""
      (mkArgs tr.cfg c).ignore_metrics_errors (mkArgs tr.cfg c).filename
      (normalizeMetricsList (mkArgs tr.cfg c).metrics_list) st1 st2 h2
    intro hmem
    have hdk : dkeys utt = dkeys st2.1 := by
      rw [hd]
      by_cases hav : (mkArgs tr.cfg c).average = true
      · rw [hav, if_pos rfl, dkeys_average]
      · rw [if_neg hav]
    rw [hdk, hk2, mem_foldl_insKey] at hmem
    rcases hmem with hmem | hmem
    · rw [hk1, mem_foldl_insKey] at hmem
      rcases hmem with hmem | hmem
      · simp [dkeys] at hmem
      · obtain ⟨m, hm', hkm⟩ := List.mem_map.mp hmem
        exact (hm m hm').2 hkm
    · rw [map_empty_append] at hmem
      exact absurd rfl (hm "filename" hmem).1

/-- The C1 witness call: two genuine extra keyword fields, one of which
collides with the computed metric key `"sdr"`, plus a `filename` label. -/
def c1wcall : CallInput :=
  ⟨fun _ => .ok (.scalar 1), fun _ => .ok (.scalar 2), some "a.wav",
    [("sdr", .scalar 99), ("origin", .scalar 7)]⟩

theorem claim_C1_witness :
    ∃ row,
      (⟨c5tr.cfg, [[("input_sdr", Val.scalar 1), ("sdr", Val.scalar 99),
          ("origin", Val.scalar 7)]]⟩ : MetricTracker).series_list =
        c5tr.series_list ++ [row] ∧
      (∀ k v, wins c1wcall.kwargs k = some v → dlookup k row = some v) ∧
      dlookup "filename" row = none := by
  exact claim_C1_amended c5tr c1wcall
    ⟨c5tr.cfg, [[("input_sdr", Val.scalar 1), ("sdr", Val.scalar 99),
      ("origin", Val.scalar 7)]]⟩
    (by decide) (by decide) (by decide)

theorem filterMap_scalarAt_map {β : Type} (l : List β) (f : β → ℚ) :
    (l.map (fun x => some (Val.scalar (f x)))).filterMap (fun c =>
      match c with
      | some (Val.scalar q) => some q
      | _ => none) = l.map f := by
  induction l with
  | nil => rfl
  | cons x rest ih => simpa [List.filterMap_cons] using ih

theorem colMean_scalar_map {β : Type} (l : List β) (f : β → ℚ) (hne : l ≠ []) :
    colMean (l.map (fun x => some (Val.scalar (f x)))) =
      some ((l.map f).sum / l.length) := by
  unfold colMean
  rw [filterMap_scalarAt_map]
  rw [if_neg (by
    rw [List.length_map]
    exact fun h => hne (List.length_eq_zero.mp h))]
  rw [List.length_map]

/-- Claim C6: on a non-empty row collection in which every row holds scalar
values for each configured metric and its `input_` counterpart,
`final_report` maps each metric name to the mean of its output values across
rows, and the name + `"_imp"` to the mean of the per-row differences (output
minus input). -/
theorem claim_C6_means (ml : List String) (rows : List (List (String × Val)))
    (dp : Option String)
    (hrows : rows ≠ [])
    (hnd : ml.Nodup)
    (himp : ∀ m ∈ ml, ∀ m' ∈ ml, m ++ "_imp" ≠ m')
    (hvals : ∀ m ∈ ml, ∀ r ∈ rows,
      (∃ a, dlookup m r = some (Val.scalar a)) ∧
      (∃ b, dlookup ("input_" ++ m) r = some (Val.scalar b))) :
    ∃ res w, final_report ml rows dp = .ok (res, w) ∧
      ∀ m ∈ ml,
        dlookup m res =
          some (some ((rows.map (fun r => scalarAt r m)).sum / rows.length)) ∧
        dlookup (m ++ "_imp") res =
          some (some ((rows.map (fun r =>
            scalarAt r m - scalarAt r ("input_" ++ m))).sum / rows.length)) := by
  have hcols : ∀ m ∈ ml, m ∈ dfColumns rows ∧ ("input_" ++ m) ∈ dfColumns rows := by
    intro m hm
    obtain ⟨r0, hr0⟩ : ∃ r, r ∈ rows := by
      cases rows with
      | nil => exact absurd rfl hrows
      | cons r rs => exact ⟨r, List.mem_cons_self _ _⟩
    obtain ⟨⟨a, ha⟩, ⟨b, hb⟩⟩ := hvals m hm r0 hr0
    exact ⟨(mem_dfColumns rows m).mpr ⟨r0, hr0, mem_dkeys_of_dlookup m r0 _ ha⟩,
      (mem_dfColumns rows _).mpr ⟨r0, hr0, mem_dkeys_of_dlookup _ r0 _ hb⟩⟩
  obtain ⟨res, hloop⟩ := reportLoop_isOk rows ml [] hcols
  refine ⟨res, dp.map (fun p => (normDumpPath p, res)),
    final_report_ok_of ml rows dp res hloop, ?_⟩
  intro m hm
  obtain ⟨col, icol, hcol, hicol, hv1, hv2⟩ :=
    reportLoop_written rows ml [] res hloop hnd himp m hm
  have hcol1 : col = rows.map (fun r => some (Val.scalar (scalarAt r m))) := by
    have hc := hcol
    rw [dfGetCol, if_pos (hcols m hm).1] at hc
    have hc' := (Except.ok.inj hc).symm
    rw [hc']
    apply List.map_congr_left
    intro r hr
    obtain ⟨a, ha⟩ := (hvals m hm r hr).1
    have hs : scalarAt r m = a := by
      unfold scalarAt
      rw [ha]
    rw [ha, hs]
  have hicol1 : icol =
      rows.map (fun r => some (Val.scalar (scalarAt r ("input_" ++ m)))) := by
    have hc := hicol
    rw [dfGetCol, if_pos (hcols m hm).2] at hc
    have hc' := (Except.ok.inj hc).symm
    rw [hc']
    apply List.map_congr_left
    intro r hr
    obtain ⟨b, hb⟩ := (hvals m hm r hr).2
    have hs : scalarAt r ("input_" ++ m) = b := by
      unfold scalarAt
      rw [hb]
    rw [hb, hs]
  constructor
  · rw [hv1, hcol1, colMean_scalar_map rows (fun r => scalarAt r m) hrows]
  · have hldf : List.zipWith subCell col icol =
        rows.map (fun r =>
          some (Val.scalar (scalarAt r m - scalarAt r ("input_" ++ m)))) := by
      rw [hcol1, hicol1, List.zipWith_map, List.zipWith_same]
      rfl
    rw [hv2, hldf, colMean_scalar_map rows
      (fun r => scalarAt r m - scalarAt r ("input_" ++ m)) hrows]

theorem claim_C6_witness :
    ∃ res w,
      final_report ["sdr"] [[("sdr", Val.scalar 2), ("input_sdr", Val.scalar 1)]]
        none = .ok (res, w) ∧
      dlookup "sdr" res = some (some 2) ∧
      dlookup ("sdr" ++ "_imp") res = some (some 1) := by
  obtain ⟨res, w, hok, hv⟩ := claim_C6_means ["sdr"]
    [[("sdr", Val.scalar 2), ("input_sdr", Val.scalar 1)]] none
    (by decide) (by decide) (by decide)
    (by
      intro m hm r hr
      have hm' : m = "sdr" := by simpa using hm
      have hr' : r = [("sdr", Val.scalar 2), ("input_sdr", Val.scalar 1)] := by
        simpa using hr
      subst hm'
      subst hr'
      exact ⟨⟨2, by decide⟩, ⟨1, by decide⟩⟩)
  have h := hv "sdr" (by decide)
  refine ⟨res, w, hok, ?_, ?_⟩
  · rw [h.1]
    norm_num [scalarAt, dlookup]
  · rw [h.2]
    norm_num [scalarAt, dlookup,
      show ("input_" ++ "sdr" : String) = "input_sdr" from rfl,
      show ("sdr" : String) ≠ "input_sdr" by decide]

/-- Claim C8: when `final_report` is called with a dump path and succeeds, the
summary mapping is written to `dump_path + ".json"` when the path does not
already end with `".json"`, and to `dump_path` unchanged when it does; the
written content is exactly the returned mapping. -/
theorem claim_C8_dump (ml : List String) (rows : List (List (String × Val)))
    (p : String) (res : List (String × Option ℚ))
    (w : Option (String × List (String × Option ℚ)))
    (h : final_report ml rows (some p) = .ok (res, w)) :
    w = some ((if p.endsWith ".json" then p else p ++ ".json"), res) := by
  obtain ⟨-, hw⟩ := final_report_ok_inv ml rows (some p) res w h
  rw [hw]
  rfl

theorem claim_C8_witness :
    (some ("out.json", ([] : List (String × Option ℚ))) :
        Option (String × List (String × Option ℚ))) =
      some ((if ("out" : String).endsWith ".json" then "out" else "out" ++ ".json"),
        ([] : List (String × Option ℚ))) := by
  exact claim_C8_dump [] [] "out" [] (some ("out.json", [])) (by decide)

/-- Claim C10: on an empty row collection with a non-empty configured metric
list, `final_report` raises (the per-metric column access on the empty
DataFrame fails with a `KeyError` naming the first metric) instead of
returning a mapping of not-a-number values; the raised error short-circuits
the call, so nothing is written to `dump_path` (the model's write component
only exists in the `.ok` case). -/
theorem claim_C10_empty_raises (cfg : TrackerCfg) (dp : Option String)
    (m0 : String) (ms : List String) (hml : cfg.metrics_list = m0 :: ms) :
    MetricTracker.finalReport ⟨cfg, []⟩ dp = .error m0 := by
  unfold MetricTracker.finalReport
  show final_report cfg.metrics_list [] dp = .error m0
  rw [hml]
  apply final_report_error_of
  apply reportLoop_cons_error
  rw [dfGetCol, if_neg]
  intro hmem
  simp [dfColumns] at hmem

theorem claim_C10_witness :
    MetricTracker.finalReport
      ⟨⟨16000, ["si_sdr"], true, false, false⟩, []⟩ (some "x") = .error "si_sdr" :=
  claim_C10_empty_raises ⟨16000, ["si_sdr"], true, false, false⟩ (some "x")
    "si_sdr" [] rfl

end Asteroid
